import Mathlib

/-!
# Verification of the compressarr core (job scheduler, job runner, plugin registry)

Shallow embedding of the TypeScript sources:
* `src/jobManager.ts` — pending/active tables and the `next()` admission loop;
* `src/server.ts` — the `REGISTER_JOB` runner loop and the `UNREGISTER_JOB` handler;
* `src/job.ts` (unnamed part) — `getSrcPath`, `getDestPath`, `nextAvailableDest`;
* `src/pluginManager.ts` (unnamed part) — identifier pattern, manifest validation,
  `loadPlugin`, `getPluginForJobAction`;
* `src/plugin.ts` — the `Plugin` constructor and `registerJobAction`.

Modelling conventions:
* Node `path` strings are modelled in normalized form as component lists:
  an absolute path is `AbsPath` (rendered `"/" ++ "/".intercalate segs`), a
  path relative to some root is a plain `List String` of components.  On such
  normalized inputs Node's `path.join` is concatenation of the component
  lists and `path.parse(p).dir` / `path.parse(p).name` are `dropLast` /
  extension-stripping of the last component, which is how they are embedded
  here.  Segments are assumed not to contain `/` and not to be `.` or `..`
  (the watcher hands the scheduler real file paths).
* JavaScript `Map`s are association lists with JS insertion-order semantics:
  `set` on a present key overwrites in place, on an absent key appends;
  `delete` removes the (unique) entry; iteration order is list order.
* Logging is not modelled; thrown errors become `Except` errors.
* The fallible filesystem probe `existsSync` is a parameter `disk : AbsPath → Bool`,
  and the unbounded recursion of `nextAvailableDest` is made total with a
  `fuel` argument: a `none` result means the recursion did not settle within
  `fuel` unfoldings (for any fuel), i.e. the source diverges.
-/

namespace Compressarr

/-- An absolute filesystem path, as its list of components below the root. -/
structure AbsPath where
  segs : List String
deriving DecidableEq

/-- Render an absolute path the way Node prints it, e.g. `⟨["lib", "x.mp4"]⟩ ↦ "/lib/x.mp4"`. -/
def AbsPath.render (p : AbsPath) : String :=
  "/" ++ String.intercalate "/" p.segs

/-- Node `path.join(root, rel)` for a normalized absolute `root` and relative `rel`. -/
def joinRel (a : AbsPath) (rel : List String) : AbsPath :=
  ⟨a.segs ++ rel⟩

/-- Index of the last `'.'` in a character list, if any. -/
def lastDotIdx : List Char → Option Nat
  | [] => none
  | c :: cs =>
    match lastDotIdx cs with
    | some i => some (i + 1)
    | none => if c = '.' then some 0 else none

/-- Node `path.parse(s).name` for a single path component `s`: the component with
its extension (everything from the last dot on, unless the dot is leading) removed. -/
def stemStr (s : String) : String :=
  match lastDotIdx s.toList with
  | some i => if i = 0 then s else ⟨s.toList.take i⟩
  | none => s

/-- Node `path.parse(p).dir` of an absolute path, as components. -/
def parseDirSegs (p : AbsPath) : List String :=
  p.segs.dropLast

/-- Node `path.parse(p).name` of an absolute path. -/
def parseName (p : AbsPath) : String :=
  stemStr (p.segs.getLastD "")

/-! ## JavaScript `Map` as an association list -/

section ALists

variable {α : Type} {β : Type} [DecidableEq α]

/-- `Map.get`. -/
def alookup : List (α × β) → α → Option β
  | [], _ => none
  | (k', v) :: m, k => if k' = k then some v else alookup m k

/-- `Map.set`: overwrite in place if the key is present, append otherwise. -/
def aset : List (α × β) → α → β → List (α × β)
  | [], k, v => [(k, v)]
  | (k', v') :: m, k, v => if k' = k then (k, v) :: m else (k', v') :: aset m k v

/-- `Map.delete`: remove the entry with the given key (the first one, if several). -/
def adel : List (α × β) → α → List (α × β)
  | [], _ => []
  | (k', v') :: m, k => if k' = k then m else (k', v') :: adel m k

end ALists

/-! ## Job scheduler (`src/jobManager.ts`) -/

/-- `JobConfig` from `src/bridgeService.ts`. -/
structure JobConfig where
  name : String
  srcPath : AbsPath
  tempPath : AbsPath
deriving DecidableEq

/-- The `JobManager`'s two tables: `jobs` (pending, insertion-ordered) and
`activeJobs`. -/
structure JMState where
  jobs : List (AbsPath × JobConfig)
  activeJobs : List (AbsPath × JobConfig)
deriving DecidableEq

/-- Both tables start empty. -/
def initJM : JMState := ⟨[], []⟩

/-- `JobManager.instances`: initialized to 1, overridden by `options.instances`
when truthy (so `some 0` is ignored, like the falsy `0` in TypeScript). -/
def instancesOf (o : Option Nat) : Nat :=
  match o with
  | some n => if n = 0 then 1 else n
  | none => 1

/-- The key/`JobConfig` pair built by `handleRegisterMedia` / `handleUpdateMedia`:
`srcPath = join(libraryPath, mediaPath)`, `tempPath` is obtained by joining the
`dir` and `name` of `parse(join(jobPath, mediaPath))`, and `name` is
`parse(mediaPath).name`. -/
def mediaJobConfig (jobPath lib : AbsPath) (media : List String) : AbsPath × JobConfig :=
  (joinRel lib media,
    { name := stemStr (media.getLastD "")
      srcPath := joinRel lib media
      tempPath :=
        joinRel ⟨parseDirSegs (joinRel jobPath media)⟩ [parseName (joinRel jobPath media)] })

/-- The loop body of `JobManager.next()`: while the pending table is non-empty
and the active table is below `instances`, pop the first pending entry, insert
it into `activeJobs` and recurse (the source recurses after emitting
`REGISTER_JOB`; the emission does not touch the manager's tables). -/
def nextAux (inst : Nat) : List (AbsPath × JobConfig) → List (AbsPath × JobConfig) → JMState
  | [], active => ⟨[], active⟩
  | (k, v) :: rest, active =>
    if inst ≤ active.length then ⟨(k, v) :: rest, active⟩
    else nextAux inst rest (aset active k v)

/-- `JobManager.next()`. -/
def next (inst : Nat) (s : JMState) : JMState :=
  nextAux inst s.jobs s.activeJobs

/-- `JobManager.handlePublishJob`. -/
def handlePublishJob (inst : Nat) (path : AbsPath) (s : JMState) : JMState :=
  next inst ⟨adel s.jobs path, adel s.activeJobs path⟩

/-- `JobManager.handleRegisterMedia`: insert the job config into the pending
table (overwriting), then advance.  The active table is not touched. -/
def handleRegisterMedia (inst : Nat) (jobPath lib : AbsPath) (media : List String)
    (s : JMState) : JMState :=
  next inst
    ⟨aset s.jobs (mediaJobConfig jobPath lib media).1 (mediaJobConfig jobPath lib media).2,
      s.activeJobs⟩

/-- `JobManager.handleUpdateMedia`: like register, but also drop the path from
the active table (and emit `UNREGISTER_JOB`, which does not touch these tables). -/
def handleUpdateMedia (inst : Nat) (jobPath lib : AbsPath) (media : List String)
    (s : JMState) : JMState :=
  next inst
    ⟨aset s.jobs (mediaJobConfig jobPath lib media).1 (mediaJobConfig jobPath lib media).2,
      adel s.activeJobs (mediaJobConfig jobPath lib media).1⟩

/-- `JobManager.handleUnregisterMedia`: drop the path from both tables
(and emit `UNREGISTER_JOB`), then advance. -/
def handleUnregisterMedia (inst : Nat) (lib : AbsPath) (media : List String)
    (s : JMState) : JMState :=
  next inst ⟨adel s.jobs (joinRel lib media), adel s.activeJobs (joinRel lib media)⟩

/-- The four bus events the `JobManager` subscribes to. -/
inductive MediaEvent where
  | regMedia (lib : AbsPath) (media : List String)
  | updMedia (lib : AbsPath) (media : List String)
  | unregMedia (lib : AbsPath) (media : List String)
  | pubJob (path : AbsPath)

/-- Dispatch one bus event to the corresponding handler. -/
def step (inst : Nat) (jobPath : AbsPath) (e : MediaEvent) (s : JMState) : JMState :=
  match e with
  | .regMedia lib media => handleRegisterMedia inst jobPath lib media s
  | .updMedia lib media => handleUpdateMedia inst jobPath lib media s
  | .unregMedia lib media => handleUnregisterMedia inst lib media s
  | .pubJob path => handlePublishJob inst path s

/-- Run a sequence of bus events from a state. -/
def run (inst : Nat) (jobPath : AbsPath) (es : List MediaEvent) (s : JMState) : JMState :=
  es.foldl (fun s e => step inst jobPath e s) s

/-! ## Job record (`src/job.ts`) -/

/-- The mutable `Job` record threaded through the action pipeline. -/
structure JobRec where
  name : String
  srcPath : AbsPath
  tempPath : AbsPath
  tempSrcPath : Option AbsPath
  tempDestPath : Option AbsPath
deriving DecidableEq

/-- `new Job(logger, config)`: the identifier equals `srcPath`, the temp
source/destination start unset. -/
def mkJob (cfg : JobConfig) : JobRec :=
  ⟨cfg.name, cfg.srcPath, cfg.tempPath, none, none⟩

/-- `Job.getSrcPath`: the temp source if set, the original source otherwise. -/
def JobRec.getSrcPath (j : JobRec) : AbsPath :=
  j.tempSrcPath.getD j.srcPath

/-- `Job.nextAvailableDest(path, i)`: the candidate is
`join(path, ` `` `${this.name}-${i}` `` `)`; if it exists on disk the source
recurses as `nextAvailableDest(path, i++)` — the *post*-increment passes the
old value of `i`, so the recursive call sees the same index.  `fuel` bounds
the number of unfoldings; `none` means the source recursion has not returned
within `fuel` steps. -/
def nextAvailableDest (disk : AbsPath → Bool) (name : String) (path : AbsPath) :
    Nat → Nat → Option AbsPath
  | 0, _ => none
  | fuel + 1, i =>
    let dest : AbsPath := joinRel path [name ++ "-" ++ toString i]
    if disk dest then nextAvailableDest disk name path fuel i
    else some dest

/-- Regex `/^\.+/` removal: drop every leading dot. -/
def stripLeadingDots (s : String) : String :=
  ⟨s.toList.dropWhile (fun c => c = '.')⟩

/-- `Job.getDestPath(ext?)`: allocate `tempDestPath` on first call via
`nextAvailableDest(tempPath)` (starting at `i = 1`); with an extension the
source evaluates `ext.replace(/^\.+/, '')` but **discards the result**
(JavaScript strings are immutable and the return value is not assigned), so
the returned string is `` `${tempDestPath}.${ext}` `` with the caller's `ext`
unmodified.  Returns the updated job and the rendered destination string;
`none` propagates a non-terminating allocation. -/
def getDestPath (disk : AbsPath → Bool) (fuel : Nat) (ext? : Option String)
    (j : JobRec) : Option (JobRec × String) :=
  match j.tempDestPath with
  | some d =>
    match ext? with
    | some ext => some (j, d.render ++ "." ++ ext)
    | none => some (j, d.render)
  | none =>
    match nextAvailableDest disk j.name j.tempPath fuel 1 with
    | none => none
    | some d =>
      let j' := { j with tempDestPath := some d }
      match ext? with
      | some ext => some (j', d.render ++ "." ++ ext)
      | none => some (j', d.render)

/-! ## Job runner (`src/server.ts`, `REGISTER_JOB` / `UNREGISTER_JOB` handlers)

The runner's interaction with the world is recorded as a trace of `REvent`s.
An action instance is abstracted by its `start` behaviour on a job: return an
updated job, raise `KillError`, or raise any other error.  The concurrent
mutation of the server's `activeJobs` table is abstracted by an oracle
`active : Nat → Bool` giving the result of the n-th `activeJobs.has(path)`
read the handler performs (one per loop iteration, plus one after the loop).
-/

/-- Outcome of `await jobActionInstance.start(job)`. -/
inductive StartResult where
  | ok (j : JobRec)
  | killError
  | otherError
deriving DecidableEq

/-- An action instance, abstracted by its (deterministic) `start` behaviour. -/
structure ActionInst where
  start : JobRec → StartResult

/-- Observable events of one `REGISTER_JOB` handler run.  `started i` — the
i-th action's `start` was awaited; `killed i` — the runner called the i-th
action's `kill(path)`; `moved` — the final `moveSync`; `published` — the
`PUBLISH_JOB` emission. -/
inductive REvent where
  | started (i : Nat)
  | killed (i : Nat)
  | moved (src dst : AbsPath)
  | published (p : AbsPath)
deriving DecidableEq

/-- Result of the runner's action loop. -/
structure RunOut where
  job : JobRec
  reads : Nat
  events : List REvent
  aborted : Bool

/-- The `for (const jobActionInstance of this.jobActionsInstances)` loop of the
`REGISTER_JOB` handler.  Per iteration: read `activeJobs.has(path)` (oracle
index `k`); if present, await `start` — on success continue with the updated
job, on `KillError` return from the whole handler (`aborted = true`), on any
other error log and continue with the *unchanged* job; if absent, call the
current action's `kill(path)` and `break`. -/
def runActions (active : Nat → Bool) : List ActionInst → Nat → JobRec → RunOut
  | [], k, j => ⟨j, k, [], false⟩
  | a :: rest, k, j =>
    if active k then
      match a.start j with
      | .ok j' =>
        let r := runActions active rest (k + 1) j'
        ⟨r.job, r.reads, .started k :: r.events, r.aborted⟩
      | .killError => ⟨j, k + 1, [.started k], true⟩
      | .otherError =>
        let r := runActions active rest (k + 1) j
        ⟨r.job, r.reads, .started k :: r.events, r.aborted⟩
    else ⟨j, k + 1, [.killed k], false⟩

/-- The whole `REGISTER_JOB` handler, as the trace it produces: run the action
loop on a fresh job; unless the loop returned early with `KillError`, re-read
`activeJobs.has(path)` and, when present, move the job's current source over
the original path if they differ, delete the active entry, remove the temp
directory (both unobserved here) and publish `PUBLISH_JOB(path)`. -/
def registerJobHandler (acts : List ActionInst) (active : Nat → Bool)
    (path : AbsPath) (cfg : JobConfig) : List REvent :=
  let r := runActions active acts 0 (mkJob cfg)
  if r.aborted then r.events
  else if active r.reads then
    r.events
      ++ (if r.job.getSrcPath ≠ path then [.moved r.job.getSrcPath path] else [])
      ++ [.published path]
  else r.events

/-- The `UNREGISTER_JOB` handler: call `kill(path)` on *every* configured
action instance (then delete the active entry). -/
def unregisterJobHandler (acts : List ActionInst) : List REvent :=
  (List.range acts.length).map .killed

/-! ## Plugin registry (`src/pluginManager.ts`, `src/plugin.ts`)

Job-action constructors are opaque to the registry; they are a type
parameter `κ` throughout. -/

/-- A `\w` character of the plugin-identifier regex: alphanumeric or `_`. -/
def isWordChar (c : Char) : Bool :=
  c.isAlphanum || c = '_'

/-- The unscoped part of the pattern: `compressarr-[\w-]*`. -/
def plugSlugOk (cs : List Char) : Bool :=
  decide (cs.take 12 = "compressarr-".toList)
    && (cs.drop 12).all (fun c => isWordChar c || c = '-')

/-- `PluginManager.isQualifiedPluginIdentifier`: the regex
`/^((@[\w-]*)\/)?(compressarr-[\w-]*)$/`. -/
def isQualifiedPluginIdentifier (s : String) : Bool :=
  match s.toList with
  | '@' :: rest =>
    let scope := rest.takeWhile (fun c => c ≠ '/')
    match rest.dropWhile (fun c => c ≠ '/') with
    | '/' :: slug => scope.all (fun c => isWordChar c || c = '-') && plugSlugOk slug
    | _ => false
  | cs => plugSlugOk cs

/-- `s.indexOf(c) !== -1`, on the character list (the built-in string search
does not reduce in the kernel). -/
def strHasChar (s : String) (c : Char) : Bool :=
  s.toList.contains c

/-- `PluginManager.extractPluginName`: capture group 3 of the pattern, i.e.
the part after `@scope/`, or the whole name when unscoped. -/
def extractPluginName (s : String) : String :=
  match s.toList with
  | '@' :: rest =>
    ⟨((rest.dropWhile (fun c => c ≠ '/')).drop 1).takeWhile (fun c => c ≠ '/')⟩
  | _ => s

/-- `PluginManager.extractPluginScope`: capture group 2 (`@scope`), absent
when the name is unscoped. -/
def extractPluginScope (s : String) : Option String :=
  match s.toList with
  | '@' :: rest => some ⟨'@' :: rest.takeWhile (fun c => c ≠ '/')⟩
  | _ => none

/-- `PluginManager.getJobActionName`: the bare identifier itself, or
`split('.')[1]` of a qualified one. -/
def getJobActionName (ident : String) : String :=
  if strHasChar ident '.' then
    ⟨((ident.toList.dropWhile (fun c => c ≠ '.')).drop 1).takeWhile (fun c => c ≠ '.')⟩
  else ident

/-- `PluginManager.getPluginIdentifier` (static): `split('.')[0]`, the part
before the first `.`. -/
def getPluginIdentifierOf (ident : String) : String :=
  ⟨ident.toList.takeWhile (fun c => c ≠ '.')⟩

/-- The fields of `package.json` the registry reads.  `version = ""` models a
missing or empty (falsy) version; `enginesCompressarr` / `peerDepsCompressarr`
are the `compressarr` entries of the respective maps, `hasPeerDeps` whether
`peerDependencies` is present at all. -/
structure PackageJSON where
  name : String
  version : String
  keywords : Option (List String)
  main : Option String
  enginesCompressarr : Option String
  hasPeerDeps : Bool
  peerDepsCompressarr : Option String
deriving DecidableEq

/-- A loaded `Plugin` record (`src/plugin.ts`).  `loadEnginesCompressarr` is
the `engines.compressarr` range after the constructor's promotion of
`peerDependencies.compressarr`; the load context's `dependencies` (used only
for a warning) is not modelled. -/
structure PluginR (κ : Type) where
  pluginName : String
  scope : Option String
  pluginPath : String
  disabled : Bool
  version : String
  main : String
  loadEnginesCompressarr : Option String
  registeredJobActions : List (String × κ)
deriving DecidableEq

/-- `Plugin.getPluginIdentifier`: scope prefix (with `/`) plus name. -/
def getPluginIdentifier {κ : Type} (p : PluginR κ) : String :=
  (match p.scope with | some sc => sc ++ "/" | none => "") ++ p.pluginName

/-- The `Plugin` constructor: `version` defaults to `"0.0.0"` when falsy,
`main` to `"./index.js"`, and `peerDependencies.compressarr` is promoted into
`engines.compressarr` when the latter is missing. -/
def mkPlugin (κ : Type) (name : String) (path : String) (pkg : PackageJSON)
    (scope : Option String) : PluginR κ :=
  { pluginName := name
    scope := scope
    pluginPath := path
    disabled := false
    version := if pkg.version = "" then "0.0.0" else pkg.version
    main := pkg.main.getD "./index.js"
    loadEnginesCompressarr :=
      if pkg.hasPeerDeps && pkg.enginesCompressarr.isNone then pkg.peerDepsCompressarr
      else pkg.enginesCompressarr
    registeredJobActions := [] }

/-- The message of the duplicate-registration error thrown by
`Plugin.registerJobAction`. -/
def dupActionMsg {κ : Type} (p : PluginR κ) (name : String) : String :=
  "Plugin '" ++ getPluginIdentifier p ++ "' tried to register a job action '"
    ++ name ++ "' which has already been registered!"

/-- `Plugin.registerJobAction`: throw if the name is already registered on
this plugin (leaving the map untouched), otherwise add the constructor.  The
`disabled` flag only selects a log line and has no other effect. -/
def registerJobAction {κ : Type} (p : PluginR κ) (name : String) (ctor : κ) :
    Except String (PluginR κ) :=
  if (alookup p.registeredJobActions name).isSome then
    .error (dupActionMsg p name)
  else .ok { p with registeredJobActions := aset p.registeredJobActions name ctor }

/-- The validation part of `PluginManager.loadPackageJSON` (file existence and
JSON parsing are abstracted away: the function receives the parsed manifest).
Checks, in source order: a truthy `name` matching the identifier pattern, and
a `keywords` list containing `compressarr-plugin`.  No other field — in
particular not `version` — is checked. -/
def loadPackageJSONCheck (pkg : PackageJSON) : Except String PackageJSON :=
  if pkg.name = "" || !isQualifiedPluginIdentifier pkg.name then
    .error "does not have a package name that begins with compressarr- or @scope/compressarr-"
  else if !(match pkg.keywords with
            | some kws => kws.contains "compressarr-plugin"
            | none => false) then
    .error "package.json does not contain the keyword compressarr-plugin"
  else .ok pkg

/-- `PluginManager.loadPlugin`: validate the manifest, reject a duplicate
identifier, otherwise construct the `Plugin` and cache it by identifier.
Errors are caught by the caller and leave the registry unchanged. -/
def loadPlugin {κ : Type} (reg : List (String × PluginR κ)) (absolutePath : String)
    (pkg : PackageJSON) : Except String (List (String × PluginR κ) × PluginR κ) :=
  match loadPackageJSONCheck pkg with
  | .error e => .error e
  | .ok pkgJ =>
    let identifier := pkgJ.name
    let name := extractPluginName identifier
    let scope := extractPluginScope identifier
    if (alookup reg identifier).isSome then
      .error "skipping plugin since we already loaded the same plugin"
    else
      let plugin := mkPlugin κ name absolutePath pkgJ scope
      .ok (aset reg identifier plugin, plugin)

/-- The registry state used by action resolution. -/
structure PMState (κ : Type) where
  plugins : List (String × PluginR κ)
  pluginIdentifierTranslation : List (String × String)
  jobActionToPluginMap : List (String × List (PluginR κ))

/-- `PluginManager.hasPluginRegistered`: registered directly or through the
identifier-translation table. -/
def hasPluginRegistered {κ : Type} (st : PMState κ) (pid : String) : Bool :=
  (alookup st.plugins pid).isSome || (alookup st.pluginIdentifierTranslation pid).isSome

/-- `PluginManager.getPlugin`: direct lookup, falling back to the
identifier-translation table. -/
def getPlugin {κ : Type} (st : PMState κ) (pid : String) : Option (PluginR κ) :=
  match alookup st.plugins pid with
  | some p => some p
  | none =>
    match alookup st.pluginIdentifierTranslation pid with
    | some t => alookup st.plugins t
    | none => none

/-- The errors `getPluginForJobAction` can throw.  `ambiguous` carries the
`", "`-joined list of qualified options the source interpolates into its
message. -/
inductive ResolutionError where
  | noPlugin (name : String)
  | ambiguous (name : String) (options : String)
  | notRegistered (pid : String)
deriving DecidableEq

/-- `PluginManager.getPluginForJobAction`.  Bare name (no `.`): look up the
`name → [plugin]` index; with more than one entry, build the qualified-options
message from *all* entries, filter to enabled plugins, and throw the
ambiguity error unless exactly one remains.  Qualified `plugin-id.name`:
require the plugin (or a translation for it) to be registered.  An `ok none`
models the JavaScript value `undefined` flowing out of `found[0]` /
`getPlugin(...)!` without any throw. -/
def getPluginForJobAction {κ : Type} (st : PMState κ) (ident : String) :
    Except ResolutionError (Option (PluginR κ)) :=
  if strHasChar ident '.' = false then
    match alookup st.jobActionToPluginMap ident with
    | none => .error (.noPlugin ident)
    | some found =>
      if 1 < found.length then
        let options := String.intercalate ", "
          (found.map (fun p => getPluginIdentifier p ++ "." ++ ident))
        match found.filter (fun p => !p.disabled) with
        | [p] => .ok (some p)
        | _ => .error (.ambiguous ident options)
      else
        match found with
        | p :: _ => .ok (some p)
        | [] => .ok none
  else
    let pid := getPluginIdentifierOf ident
    if hasPluginRegistered st pid then .ok (getPlugin st pid)
    else .error (.notRegistered pid)

/-! ## Concrete fixtures used by witnesses and counterexamples -/

/-- The job config of the spec's happy-path scenario: `/lib/x.mp4` with job
root `/s/jobs`. -/
def xJobCfg : JobConfig :=
  { name := "x", srcPath := ⟨["lib", "x.mp4"]⟩, tempPath := ⟨["s", "jobs", "x"]⟩ }

/-- A fresh job for `xJobCfg`. -/
def xJob : JobRec := mkJob xJobCfg

/-- A disk on which exactly the first destination candidate
`/s/jobs/x/x-1` already exists. -/
def taken1Disk : AbsPath → Bool :=
  fun p => decide (p = ⟨["s", "jobs", "x", "x-1"]⟩)

/-- A disk on which nothing exists. -/
def emptyDisk : AbsPath → Bool := fun _ => false

/-- An action whose `start` succeeds and returns the job unchanged. -/
def actOk : ActionInst := ⟨fun j => .ok j⟩

/-- An action whose `start` always raises a non-`KillError` error. -/
def actErr : ActionInst := ⟨fun _ => .otherError⟩

/-- An enabled plugin `compressarr-a` contributing action `enc`. -/
def plugA : PluginR Nat :=
  { pluginName := "compressarr-a", scope := none, pluginPath := "/a", disabled := false
    version := "1.0.0", main := "./index.js", loadEnginesCompressarr := some "1.0.0"
    registeredJobActions := [("enc", 1)] }

/-- An enabled plugin `compressarr-b` also contributing action `enc`. -/
def plugB : PluginR Nat :=
  { pluginName := "compressarr-b", scope := none, pluginPath := "/b", disabled := false
    version := "1.0.0", main := "./index.js", loadEnginesCompressarr := some "1.0.0"
    registeredJobActions := [("enc", 2)] }

/-- A registry state in which both `plugA` and `plugB` registered `enc`. -/
def ambSt : PMState Nat :=
  { plugins := [("compressarr-a", plugA), ("compressarr-b", plugB)]
    pluginIdentifierTranslation := []
    jobActionToPluginMap := [("enc", [plugA, plugB])] }

/-- A plugin with no registered actions yet. -/
def plugEmpty : PluginR Nat :=
  { pluginName := "compressarr-a", scope := none, pluginPath := "/a", disabled := false
    version := "1.0.0", main := "./index.js", loadEnginesCompressarr := some "1.0.0"
    registeredJobActions := [] }

/-- A manifest that is valid except for its empty (missing) version. -/
def pkgNoVersion : PackageJSON :=
  { name := "compressarr-x", version := "", keywords := some ["compressarr-plugin"]
    main := none, enginesCompressarr := some "1.0.0", hasPeerDeps := false
    peerDepsCompressarr := none }

/-! # Theorems

First a small library about the `Map` embedding, then one theorem (plus
witness / counterexample as required) per claim. -/

section MapLemmas

variable {α : Type} {β : Type} [DecidableEq α]

theorem alookup_aset_self (m : List (α × β)) (k : α) (v : β) :
    alookup (aset m k v) k = some v := by
  induction m with
  | nil => simp [aset, alookup]
  | cons hd tl ih =>
    obtain ⟨k', v'⟩ := hd
    by_cases h : k' = k
    · subst h; simp [aset, alookup]
    · simp [aset, alookup, h, ih]

theorem aset_length_le (m : List (α × β)) (k : α) (v : β) :
    (aset m k v).length ≤ m.length + 1 := by
  induction m with
  | nil => simp [aset]
  | cons hd tl ih =>
    obtain ⟨k', v'⟩ := hd
    by_cases h : k' = k
    · simp [aset, h]
    · simp only [aset, if_neg h, List.length_cons]
      omega

theorem adel_length_le (m : List (α × β)) (k : α) :
    (adel m k).length ≤ m.length := by
  induction m with
  | nil => simp [adel]
  | cons hd tl ih =>
    obtain ⟨k', v'⟩ := hd
    by_cases h : k' = k
    · simp [adel, h]
    · simp only [adel, if_neg h, List.length_cons]
      omega

theorem mem_keys_aset (m : List (α × β)) (k a : α) (v : β) :
    a ∈ (aset m k v).map Prod.fst ↔ a ∈ m.map Prod.fst ∨ a = k := by
  induction m with
  | nil => simp [aset]
  | cons hd tl ih =>
    obtain ⟨k', v'⟩ := hd
    simp only [aset]
    split
    · next h =>
        subst h
        simp only [List.map_cons, List.mem_cons]
        tauto
    · next h =>
        simp only [List.map_cons, List.mem_cons, ih]
        tauto

theorem mem_keys_adel (m : List (α × β)) (k a : α) :
    a ∈ (adel m k).map Prod.fst → a ∈ m.map Prod.fst := by
  induction m with
  | nil => simp [adel]
  | cons hd tl ih =>
    obtain ⟨k', v'⟩ := hd
    by_cases h : k' = k
    · simp only [adel, if_pos h, List.map_cons, List.mem_cons]
      tauto
    · simp only [adel, if_neg h, List.map_cons, List.mem_cons]
      tauto

theorem nodup_keys_aset (m : List (α × β)) (k : α) (v : β)
    (h : (m.map Prod.fst).Nodup) : ((aset m k v).map Prod.fst).Nodup := by
  induction m with
  | nil => simp [aset]
  | cons hd tl ih =>
    obtain ⟨k', v'⟩ := hd
    simp only [List.map_cons, List.nodup_cons] at h
    by_cases hk : k' = k
    · subst hk
      simpa [aset, List.nodup_cons] using h
    · simp only [aset, if_neg hk, List.map_cons, List.nodup_cons]
      refine ⟨fun hc => ?_, ih h.2⟩
      rcases (mem_keys_aset tl k k' v).1 hc with hm | hm
      · exact h.1 hm
      · exact hk hm

theorem nodup_keys_adel (m : List (α × β)) (k : α)
    (h : (m.map Prod.fst).Nodup) : ((adel m k).map Prod.fst).Nodup := by
  induction m with
  | nil => simp [adel]
  | cons hd tl ih =>
    obtain ⟨k', v'⟩ := hd
    simp only [List.map_cons, List.nodup_cons] at h
    by_cases hk : k' = k
    · simpa [adel, hk] using h.2
    · simp only [adel, if_neg hk, List.map_cons, List.nodup_cons]
      exact ⟨fun hc => h.1 (mem_keys_adel tl k k' hc), ih h.2⟩

theorem not_mem_keys_adel_self (m : List (α × β)) (k : α)
    (h : (m.map Prod.fst).Nodup) : k ∉ (adel m k).map Prod.fst := by
  induction m with
  | nil => simp [adel]
  | cons hd tl ih =>
    obtain ⟨k', v'⟩ := hd
    simp only [List.map_cons, List.nodup_cons] at h
    by_cases hk : k' = k
    · subst hk
      simpa [adel] using h.1
    · simp only [adel, if_neg hk, List.map_cons, List.mem_cons]
      rintro (rfl | hm)
      · exact hk rfl
      · exact ih h.2 hm

theorem alookup_isSome_iff_mem_keys (m : List (α × β)) (k : α) :
    (alookup m k).isSome = true ↔ k ∈ m.map Prod.fst := by
  induction m with
  | nil => simp [alookup]
  | cons hd tl ih =>
    obtain ⟨k', v'⟩ := hd
    by_cases h : k' = k
    · subst h; simp [alookup]
    · simp [alookup, h, ih, Ne.symm h]

theorem alookup_eq_none_iff (m : List (α × β)) (k : α) :
    alookup m k = none ↔ k ∉ m.map Prod.fst := by
  rw [← alookup_isSome_iff_mem_keys]
  cases alookup m k <;> simp

end MapLemmas

/-! ## Scheduler invariants (C2, C3) -/

theorem nextAux_active_length_le (inst : Nat) (jobs active : List (AbsPath × JobConfig))
    (h : active.length ≤ inst) : (nextAux inst jobs active).activeJobs.length ≤ inst := by
  induction jobs generalizing active with
  | nil => simpa [nextAux]
  | cons hd rest ih =>
    obtain ⟨k, v⟩ := hd
    simp only [nextAux]
    split
    · simpa
    · next hlt =>
        exact ih (aset active k v)
          (le_trans (aset_length_le active k v) (by omega))

theorem step_active_length_le (inst : Nat) (jobPath : AbsPath) (e : MediaEvent)
    (s : JMState) (h : s.activeJobs.length ≤ inst) :
    (step inst jobPath e s).activeJobs.length ≤ inst := by
  cases e with
  | regMedia lib media =>
    exact nextAux_active_length_le inst _ _ h
  | updMedia lib media =>
    exact nextAux_active_length_le inst _ _
      (le_trans (adel_length_le _ _) h)
  | unregMedia lib media =>
    exact nextAux_active_length_le inst _ _
      (le_trans (adel_length_le _ _) h)
  | pubJob path =>
    exact nextAux_active_length_le inst _ _
      (le_trans (adel_length_le _ _) h)

theorem run_active_length_le (inst : Nat) (jobPath : AbsPath) (es : List MediaEvent)
    (s : JMState) (h : s.activeJobs.length ≤ inst) :
    (run inst jobPath es s).activeJobs.length ≤ inst := by
  induction es generalizing s with
  | nil => simpa [run]
  | cons e rest ih =>
    exact ih (step inst jobPath e s) (step_active_length_le inst jobPath e s h)

/-- **C3.** For every configured `instances` option and every sequence of
media/publish events processed from the initial state, the active table holds
at most `instances` entries (with `instances` defaulting to 1 when the option
is absent), and the advance loop `next` admits nothing once the active table
has reached the cap (when it does admit, it takes the first — insertion-ordered
— pending entry, which is what `nextAux` consumes). -/
theorem jobManager_active_le_instances (opts : Option Nat) (jobPath : AbsPath)
    (es : List MediaEvent) :
    (run (instancesOf opts) jobPath es initJM).activeJobs.length ≤ instancesOf opts ∧
    instancesOf none = 1 ∧
    (∀ s : JMState, instancesOf opts ≤ s.activeJobs.length → next (instancesOf opts) s = s) := by
  refine ⟨run_active_length_le _ _ _ _ (by simp [initJM]), rfl, fun s hs => ?_⟩
  obtain ⟨jobs, active⟩ := s
  cases jobs with
  | nil => simp [next, nextAux]
  | cons hd rest =>
    obtain ⟨k, v⟩ := hd
    simp only [next, nextAux] at hs ⊢
    split
    · rfl
    · next hversion => exact absurd hs hversion

/-- The tables invariant whose disjointness part is claim C2: keys of both
tables are duplicate-free and no key is in both. -/
def TablesOk (jobs active : List (AbsPath × JobConfig)) : Prop :=
  (jobs.map Prod.fst).Nodup ∧ (active.map Prod.fst).Nodup ∧
    ∀ p, p ∈ jobs.map Prod.fst → p ∉ active.map Prod.fst

theorem nextAux_tablesOk (inst : Nat) (jobs active : List (AbsPath × JobConfig))
    (h : TablesOk jobs active) :
    TablesOk (nextAux inst jobs active).jobs (nextAux inst jobs active).activeJobs := by
  induction jobs generalizing active with
  | nil => simpa [nextAux]
  | cons hd rest ih =>
    obtain ⟨k, v⟩ := hd
    obtain ⟨hjobs, hactive, hdisj⟩ := h
    simp only [List.map_cons, List.nodup_cons] at hjobs
    simp only [nextAux]
    split
    · exact ⟨by simp [List.nodup_cons, hjobs.1, hjobs.2], hactive, hdisj⟩
    · refine ih (aset active k v) ⟨hjobs.2, nodup_keys_aset active k v hactive, ?_⟩
      intro p hp hmem
      rcases (mem_keys_aset active k p v).1 hmem with hm | hm
      · exact hdisj p (by simp [hp]) hm
      · subst hm
        exact hjobs.1 hp

theorem guarded_step_tablesOk (inst : Nat) (jobPath : AbsPath) (e : MediaEvent)
    (s : JMState) (h : TablesOk s.jobs s.activeJobs)
    (hguard : ∀ lib media, e = MediaEvent.regMedia lib media →
      alookup s.activeJobs (joinRel lib media) = none) :
    TablesOk (step inst jobPath e s).jobs (step inst jobPath e s).activeJobs := by
  obtain ⟨hjobs, hactive, hdisj⟩ := h
  cases e with
  | regMedia lib media =>
    have hg : alookup s.activeJobs (joinRel lib media) = none := hguard lib media rfl
    refine nextAux_tablesOk inst _ _ ⟨nodup_keys_aset _ _ _ hjobs, hactive, ?_⟩
    intro p hp hmem
    rcases (mem_keys_aset s.jobs (mediaJobConfig jobPath lib media).1 p _).1 hp with hm | hm
    · exact hdisj p hm hmem
    · subst hm
      exact ((alookup_eq_none_iff _ _).1 hg) hmem
  | updMedia lib media =>
    refine nextAux_tablesOk inst _ _
      ⟨nodup_keys_aset _ _ _ hjobs, nodup_keys_adel _ _ hactive, ?_⟩
    intro p hp hmem
    rcases (mem_keys_aset s.jobs (mediaJobConfig jobPath lib media).1 p _).1 hp with hm | hm
    · exact hdisj p hm (mem_keys_adel _ _ _ hmem)
    · subst hm
      exact not_mem_keys_adel_self _ _ hactive hmem
  | unregMedia lib media =>
    refine nextAux_tablesOk inst _ _
      ⟨nodup_keys_adel _ _ hjobs, nodup_keys_adel _ _ hactive, ?_⟩
    intro p hp hmem
    exact hdisj p (mem_keys_adel _ _ _ hp) (mem_keys_adel _ _ _ hmem)
  | pubJob path =>
    refine nextAux_tablesOk inst _ _
      ⟨nodup_keys_adel _ _ hjobs, nodup_keys_adel _ _ hactive, ?_⟩
    intro p hp hmem
    exact hdisj p (mem_keys_adel _ _ _ hp) (mem_keys_adel _ _ _ hmem)

/-- Reachability of scheduler states when `REGISTER_MEDIA` is only delivered
for source paths that are not currently in the active table (the restriction
the counterexample to C2 forces). -/
inductive ReachG (inst : Nat) (jobPath : AbsPath) : JMState → Prop where
  | init : ReachG inst jobPath initJM
  | reg {s : JMState} (lib : AbsPath) (media : List String) :
      ReachG inst jobPath s →
      alookup s.activeJobs (joinRel lib media) = none →
      ReachG inst jobPath (handleRegisterMedia inst jobPath lib media s)
  | upd {s : JMState} (lib : AbsPath) (media : List String) :
      ReachG inst jobPath s → ReachG inst jobPath (handleUpdateMedia inst jobPath lib media s)
  | unreg {s : JMState} (lib : AbsPath) (media : List String) :
      ReachG inst jobPath s → ReachG inst jobPath (handleUnregisterMedia inst lib media s)
  | pub {s : JMState} (p : AbsPath) :
      ReachG inst jobPath s → ReachG inst jobPath (handlePublishJob inst p s)

theorem reachG_tablesOk {inst : Nat} {jobPath : AbsPath} {s : JMState}
    (h : ReachG inst jobPath s) : TablesOk s.jobs s.activeJobs := by
  induction h with
  | init => exact ⟨List.nodup_nil, List.nodup_nil, by simp [initJM]⟩
  | reg lib media _ hg ih =>
    exact guarded_step_tablesOk inst jobPath (MediaEvent.regMedia lib media) _ ih
      (by rintro lib' media' ⟨rfl, rfl⟩; exact hg)
  | upd lib media _ ih =>
    exact guarded_step_tablesOk inst jobPath (MediaEvent.updMedia lib media) _ ih
      (by rintro lib' media' h'; cases h')
  | unreg lib media _ ih =>
    exact guarded_step_tablesOk inst jobPath (MediaEvent.unregMedia lib media) _ ih
      (by rintro lib' media' h'; cases h')
  | pub p _ ih =>
    exact guarded_step_tablesOk inst jobPath (MediaEvent.pubJob p) _ ih
      (by rintro lib' media' h'; cases h')

/-- **C2, counterexample.** The claim as stated is false: the
`handleRegisterMedia` handler inserts into the pending table without ever
touching the active table, so delivering `REGISTER_MEDIA(/lib, x.mp4)` twice
(with `instances = 1`, so the first one is admitted) leaves `/lib/x.mp4`
simultaneously in the pending table and in the active table. -/
theorem pending_active_overlap_counterexample :
    ((alookup (run 1 ⟨["s", "jobs"]⟩
        [MediaEvent.regMedia ⟨["lib"]⟩ ["x.mp4"], MediaEvent.regMedia ⟨["lib"]⟩ ["x.mp4"]]
        initJM).jobs ⟨["lib", "x.mp4"]⟩).isSome = true) ∧
    ((alookup (run 1 ⟨["s", "jobs"]⟩
        [MediaEvent.regMedia ⟨["lib"]⟩ ["x.mp4"], MediaEvent.regMedia ⟨["lib"]⟩ ["x.mp4"]]
        initJM).activeJobs ⟨["lib", "x.mp4"]⟩).isSome = true) := by
  decide

/-- **C2, amended.** In every state reachable by media and publish-job events
in which `REGISTER_MEDIA` is only delivered for paths not currently active
(the unrestricted handler puts an already-active path into both tables), no
source path is simultaneously a key of the pending table and a key of the
active table. -/
theorem pending_active_disjoint {inst : Nat} {jobPath : AbsPath} {s : JMState}
    (h : ReachG inst jobPath s) (p : AbsPath) :
    (alookup s.jobs p).isSome = true → (alookup s.activeJobs p).isSome = true → False := by
  intro hj ha
  exact (reachG_tablesOk h).2.2 p ((alookup_isSome_iff_mem_keys _ _).1 hj)
    ((alookup_isSome_iff_mem_keys _ _).1 ha)

/-- Witness for the amended C2 at a concrete reachable state: one guarded
`REGISTER_MEDIA` from the initial state. -/
theorem pending_active_disjoint_witness :
    ¬ ((alookup (handleRegisterMedia 1 ⟨["s", "jobs"]⟩ ⟨["lib"]⟩ ["x.mp4"] initJM).jobs
          ⟨["lib", "x.mp4"]⟩).isSome = true ∧
       (alookup (handleRegisterMedia 1 ⟨["s", "jobs"]⟩ ⟨["lib"]⟩ ["x.mp4"] initJM).activeJobs
          ⟨["lib", "x.mp4"]⟩).isSome = true) :=
  fun hc =>
    pending_active_disjoint
      (ReachG.reg ⟨["lib"]⟩ ["x.mp4"] ReachG.init (by decide))
      ⟨["lib", "x.mp4"]⟩ hc.1 hc.2

/-! ## The JobConfig built on REGISTER_MEDIA (C7) -/

theorem getLastD_irrel {β : Type} (ys : List β) (a b : β) (h : ys ≠ []) :
    ys.getLastD a = ys.getLastD b := by
  obtain ⟨w, hw⟩ := Option.isSome_iff_exists.1 (List.getLast?_isSome.2 h)
  simp [List.getLastD_eq_getLast?, hw]

theorem getLastD_append {β : Type} (xs ys : List β) (d : β) (h : ys ≠ []) :
    (xs ++ ys).getLastD d = ys.getLastD d := by
  induction xs generalizing d with
  | nil => rfl
  | cons x xs ih =>
    rw [List.cons_append, List.getLastD_cons, ih x, getLastD_irrel ys x d h]

/-- **C7.** On `REGISTER_MEDIA(libRoot, rel)` with a non-empty relative path,
the scheduler inserts under key `libRoot ⊕ rel` (`Map.set`, i.e. overwriting
while keeping at most one entry per key) a `JobConfig` whose `name` is
`stem(rel)`, whose `srcPath` is `libRoot ⊕ rel`, and whose `tempPath` is
`jobRoot ⊕ dir(rel) ⊕ stem(rel)`; the handler is exactly that insertion
followed by the advance loop. -/
theorem registerMedia_inserts_jobConfig (inst : Nat) (jobPath lib : AbsPath)
    (media : List String) (s : JMState) (h : media ≠ []) :
    (mediaJobConfig jobPath lib media).1 = joinRel lib media ∧
    (mediaJobConfig jobPath lib media).2.name = stemStr (media.getLastD "") ∧
    (mediaJobConfig jobPath lib media).2.srcPath = joinRel lib media ∧
    (mediaJobConfig jobPath lib media).2.tempPath =
      joinRel jobPath (media.dropLast ++ [stemStr (media.getLastD "")]) ∧
    handleRegisterMedia inst jobPath lib media s =
      next inst
        ⟨aset s.jobs (joinRel lib media) (mediaJobConfig jobPath lib media).2, s.activeJobs⟩ ∧
    alookup (aset s.jobs (joinRel lib media) (mediaJobConfig jobPath lib media).2)
        (joinRel lib media) = some (mediaJobConfig jobPath lib media).2 ∧
    ((s.jobs.map Prod.fst).Nodup →
      ((aset s.jobs (joinRel lib media) (mediaJobConfig jobPath lib media).2).map
        Prod.fst).Nodup) := by
  have hdir : parseDirSegs (joinRel jobPath media) = jobPath.segs ++ media.dropLast := by
    simp only [parseDirSegs, joinRel]
    exact List.dropLast_append_of_ne_nil _ h
  have hname : parseName (joinRel jobPath media) = stemStr (media.getLastD "") := by
    simp only [parseName, joinRel]
    rw [getLastD_append _ _ _ h]
  refine ⟨rfl, rfl, rfl, ?_, rfl, alookup_aset_self _ _ _,
    fun hn => nodup_keys_aset _ _ _ hn⟩
  show joinRel ⟨parseDirSegs (joinRel jobPath media)⟩ [parseName (joinRel jobPath media)] = _
  rw [hdir, hname]
  simp [joinRel, List.append_assoc]

/-- Witness for C7 at the spec's happy-path literals. -/
theorem registerMedia_inserts_jobConfig_witness :
    (mediaJobConfig ⟨["s", "jobs"]⟩ ⟨["lib"]⟩ ["x.mp4"]).2.tempPath =
      joinRel ⟨["s", "jobs"]⟩ ((["x.mp4"] : List String).dropLast
        ++ [stemStr ((["x.mp4"] : List String).getLastD "")]) :=
  (registerMedia_inserts_jobConfig 1 ⟨["s", "jobs"]⟩ ⟨["lib"]⟩ ["x.mp4"] initJM
    (by decide)).2.2.2.1

/-! ## Runner error handling and cancellation (C1, C5) -/

theorem runActions_allActive (active : Nat → Bool) (hact : ∀ k, active k = true) :
    ∀ (acts : List ActionInst) (k : Nat) (j : JobRec),
      (runActions active acts k j).aborted = false →
      (runActions active acts k j).events = (List.range' k acts.length).map REvent.started := by
  intro acts
  induction acts with
  | nil => intro k j _; simp [runActions]
  | cons a rest ih =>
    intro k j hab
    simp only [runActions, hact k, if_true] at hab ⊢
    cases hstart : a.start j with
    | ok j' =>
      simp only [hstart] at hab ⊢
      rw [List.length_cons, List.range'_succ, List.map_cons]
      exact congrArg _ (ih (k + 1) j' hab)
    | killError => simp [hstart] at hab
    | otherError =>
      simp only [hstart] at hab ⊢
      rw [List.length_cons, List.range'_succ, List.map_cons]
      exact congrArg _ (ih (k + 1) j hab)

/-- **C1, counterexample.** The claim as stated is false: with two configured
actions of which the first raises a non-`KillError` error on every `start`,
the runner logs the error, *continues* with the unchanged job, invokes the
second action's `start`, and — the job still being active — publishes
`PUBLISH_JOB` for the source path. -/
theorem runner_error_counterexample :
    registerJobHandler [actErr, actOk] (fun _ => true) ⟨["lib", "x.mp4"]⟩ xJobCfg =
      [REvent.started 0, REvent.started 1, REvent.published ⟨["lib", "x.mp4"]⟩] ∧
    REvent.started 1 ∈
      registerJobHandler [actErr, actOk] (fun _ => true) ⟨["lib", "x.mp4"]⟩ xJobCfg ∧
    REvent.published ⟨["lib", "x.mp4"]⟩ ∈
      registerJobHandler [actErr, actOk] (fun _ => true) ⟨["lib", "x.mp4"]⟩ xJobCfg := by
  decide

/-- **C1, amended.** When an action's `start` raises an error that is not the
killed error kind, the runner logs it and *continues the pipeline with the
unchanged job*: provided the job is never unregistered and no action raises
the killed error (so the run is not aborted), every configured action's
`start` is invoked — errors notwithstanding — and `PUBLISH_JOB` is still
published for the source path at the end. -/
theorem runner_continues_after_error (acts : List ActionInst) (active : Nat → Bool)
    (path : AbsPath) (cfg : JobConfig)
    (hact : ∀ k, active k = true)
    (hnoabort : (runActions active acts 0 (mkJob cfg)).aborted = false) :
    (∀ m, m < acts.length → REvent.started m ∈ registerJobHandler acts active path cfg) ∧
    REvent.published path ∈ registerJobHandler acts active path cfg := by
  have hev := runActions_allActive active hact acts 0 (mkJob cfg) hnoabort
  simp only [registerJobHandler, hnoabort, Bool.false_eq_true, if_false,
    hact _, if_true, hev]
  constructor
  · intro m hm
    simp [List.mem_append, List.mem_range'_1, hm]
  · simp [List.mem_append]

/-- Witness for the amended C1: first action errs, second succeeds, the job
is never unregistered — `PUBLISH_JOB` is emitted. -/
theorem runner_continues_after_error_witness :
    REvent.published ⟨["lib", "x.mp4"]⟩ ∈
      registerJobHandler [actErr, actOk] (fun _ => true) ⟨["lib", "x.mp4"]⟩ xJobCfg :=
  (runner_continues_after_error [actErr, actOk] (fun _ => true) ⟨["lib", "x.mp4"]⟩ xJobCfg
    (fun _ => rfl) (by decide)).2

theorem runActions_cancel (active : Nat → Bool) (i : Nat) :
    ∀ (acts : List ActionInst) (k : Nat) (j : JobRec),
      k ≤ i → i - k < acts.length →
      (∀ m, k ≤ m → m < i → active m = true) →
      active i = false →
      (∀ m a, acts[m]? = some a → k + m < i → ∀ jb, a.start jb ≠ .killError) →
      ∃ j', runActions active acts k j =
        ⟨j', i + 1, (List.range' k (i - k)).map REvent.started ++ [REvent.killed i], false⟩ := by
  intro acts
  induction acts with
  | nil =>
    intro k j _ hlen _ _ _
    simp at hlen
  | cons a rest ih =>
    intro k j hk hlen hpre hF hnk
    by_cases hki : k = i
    · subst hki
      exact ⟨j, by simp [runActions, hF, Nat.sub_self]⟩
    · have hklt : k < i := lt_of_le_of_ne hk hki
      have hak : active k = true := hpre k le_rfl hklt
      have hrange : List.range' k (i - k) = k :: List.range' (k + 1) (i - (k + 1)) := by
        have hik : i - k = (i - (k + 1)) + 1 := by omega
        rw [hik, List.range'_succ]
      have hlen' : i - (k + 1) < rest.length := by
        simp only [List.length_cons] at hlen
        omega
      have hpre' : ∀ m, k + 1 ≤ m → m < i → active m = true :=
        fun m hm1 hm2 => hpre m (by omega) hm2
      have hnk' : ∀ m a', rest[m]? = some a' → (k + 1) + m < i → ∀ jb, a'.start jb ≠ .killError :=
        fun m a' hma hmi jb => hnk (m + 1) a' (by simpa using hma) (by omega) jb
      cases hstart : a.start j with
      | ok j' =>
        obtain ⟨j'', hrun⟩ := ih (k + 1) j' (by omega) hlen' hpre' hF hnk'
        exact ⟨j'', by simp [runActions, hak, hstart, hrun, hrange]⟩
      | killError =>
        exact absurd hstart (hnk 0 a (by simp) (by omega) j)
      | otherError =>
        obtain ⟨j'', hrun⟩ := ih (k + 1) j (by omega) hlen' hpre' hF hnk'
        exact ⟨j'', by simp [runActions, hak, hstart, hrun, hrange]⟩

/-- **C5, counterexample.** The claim as stated is false in its "each
subsequent action instance" part: with three configured actions and the job
removed from the active table before the first step, the runner's trace is
exactly `[killed 0]` — the runner invokes `kill` only on the action instance
at which the cancellation is detected, not on the later instances. -/
theorem runner_cancellation_counterexample :
    registerJobHandler [actOk, actOk, actOk] (fun _ => false) ⟨["lib", "x.mp4"]⟩ xJobCfg =
      [REvent.killed 0] ∧
    REvent.killed 1 ∉
      registerJobHandler [actOk, actOk, actOk] (fun _ => false) ⟨["lib", "x.mp4"]⟩ xJobCfg ∧
    REvent.killed 2 ∉
      registerJobHandler [actOk, actOk, actOk] (fun _ => false) ⟨["lib", "x.mp4"]⟩ xJobCfg := by
  decide

/-- **C5, amended.** If the job's source path has been removed from the active
table before the runner reaches action step `i` (and stays removed for the
post-loop re-check), then step `i`'s `start` is never invoked (nor any later
one); the runner invokes `kill(src)` on exactly the action instance at step
`i` and stops, while the `UNREGISTER_JOB` handler itself invokes `kill(src)`
on every configured action instance; no final move is performed and
`PUBLISH_JOB` is not published for that path. -/
theorem runner_cancellation (acts : List ActionInst) (active : Nat → Bool)
    (path : AbsPath) (cfg : JobConfig) (i : Nat)
    (hi : i < acts.length)
    (hpre : ∀ m, m < i → active m = true)
    (hcancel : active i = false)
    (hpost : active (i + 1) = false)
    (hnokill : ∀ m a, acts[m]? = some a → m < i → ∀ jb, a.start jb ≠ .killError) :
    registerJobHandler acts active path cfg =
      (List.range' 0 i).map REvent.started ++ [REvent.killed i] ∧
    (∀ m, i ≤ m → REvent.started m ∉ registerJobHandler acts active path cfg) ∧
    REvent.killed i ∈ registerJobHandler acts active path cfg ∧
    (∀ m, m ≠ i → REvent.killed m ∉ registerJobHandler acts active path cfg) ∧
    (∀ a b, REvent.moved a b ∉ registerJobHandler acts active path cfg) ∧
    (∀ q, REvent.published q ∉ registerJobHandler acts active path cfg) ∧
    unregisterJobHandler acts = (List.range acts.length).map REvent.killed := by
  obtain ⟨j', hrun⟩ := runActions_cancel active i acts 0 (mkJob cfg) (Nat.zero_le i)
    (by simpa using hi) (fun m _ hm => hpre m hm) hcancel
    (fun m a hma hmi jb => hnokill m a hma (by omega) jb)
  have hevs : registerJobHandler acts active path cfg =
      (List.range' 0 i).map REvent.started ++ [REvent.killed i] := by
    simp [registerJobHandler, hrun, hpost]
  refine ⟨hevs, ?_, ?_, ?_, ?_, ?_, rfl⟩
  · intro m hm
    rw [hevs]
    simp only [List.mem_append, List.mem_map, List.mem_range'_1, List.mem_singleton]
    rintro (⟨x, hx, hsx⟩ | hkx)
    · cases hsx
      omega
    · cases hkx
  · rw [hevs]
    simp
  · intro m hm
    rw [hevs]
    simp only [List.mem_append, List.mem_map, List.mem_range'_1, List.mem_singleton]
    rintro (⟨x, hx, hsx⟩ | hkx)
    · cases hsx
    · cases hkx
      exact hm rfl
  · intro a b
    rw [hevs]
    simp only [List.mem_append, List.mem_map, List.mem_range'_1, List.mem_singleton]
    rintro (⟨x, hx, hsx⟩ | hkx)
    · cases hsx
    · cases hkx
  · intro q
    rw [hevs]
    simp only [List.mem_append, List.mem_map, List.mem_range'_1, List.mem_singleton]
    rintro (⟨x, hx, hsx⟩ | hkx)
    · cases hsx
    · cases hkx

/-- Witness for the amended C5: cancellation detected at step 1 of three
actions; the trace is `started 0` then `killed 1`. -/
theorem runner_cancellation_witness :
    registerJobHandler [actOk, actOk, actOk] (fun m => decide (m = 0)) ⟨["lib", "x.mp4"]⟩
        xJobCfg =
      (List.range' 0 1).map REvent.started ++ [REvent.killed 1] :=
  (runner_cancellation [actOk, actOk, actOk] (fun m => decide (m = 0)) ⟨["lib", "x.mp4"]⟩
    xJobCfg 1 (by decide)
    (fun m hm => by
      have hm0 : m = 0 := by omega
      subst hm0
      rfl)
    (by decide) (by decide)
    (fun m a hma hm jb => by
      have hm0 : m = 0 := by omega
      subst hm0
      simp only [List.getElem?_cons_zero, Option.some.injEq] at hma
      subst hma
      simp [actOk])).1

/-! ## Destination allocation (C4, C6) -/

theorem nextAvailableDest_taken_stuck :
    ∀ fuel : Nat, nextAvailableDest taken1Disk "x" ⟨["s", "jobs", "x"]⟩ fuel 1 = none := by
  intro fuel
  induction fuel with
  | zero => rfl
  | succ n ih =>
    have hd : taken1Disk (joinRel ⟨["s", "jobs", "x"]⟩ ["x" ++ "-" ++ toString 1]) = true := by
      decide
    simp only [nextAvailableDest, hd, if_true]
    exact ih

/-- **C4 (code bug).** On a disk where the first candidate `/s/jobs/x/x-1`
already exists, the first `getDestPath` call never terminates: the source
recursion `nextAvailableDest(path, i++)` passes the *old* value of `i`
(post-increment), so the index never advances and, for every recursion
budget, no destination is produced — against the claimed "smallest `i ≥ 1`
whose candidate does not exist".  When the first candidate is free the call
does return it. -/
theorem job_getDestPath_diverges (fuel : Nat) :
    getDestPath taken1Disk fuel none xJob = none ∧
    getDestPath emptyDisk 1 none xJob =
      some ({ xJob with tempDestPath := some ⟨["s", "jobs", "x", "x-1"]⟩ },
        "/s/jobs/x/x-1") := by
  constructor
  · simp [getDestPath, xJob, mkJob, xJobCfg, nextAvailableDest_taken_stuck fuel]
  · decide

/-- **C6 (code bug).** `getDestPath(ext)` does not strip leading dots: the
source evaluates `ext.replace(/^\.+/, '')` but discards the result, so
`getDestPath(".mkv")` yields `/s/jobs/x/x-1..mkv` (double dot) while
`getDestPath("mkv")` yields `/s/jobs/x/x-1.mkv` — the two calls the claim
says coincide differ.  `stripLeadingDots` is the stripping the claim (and
the dead `replace` call) intends. -/
theorem job_getDestPath_ext_not_stripped :
    (getDestPath emptyDisk 1 (some ".mkv") xJob).map Prod.snd = some "/s/jobs/x/x-1..mkv" ∧
    (getDestPath emptyDisk 1 (some "mkv") xJob).map Prod.snd = some "/s/jobs/x/x-1.mkv" ∧
    (getDestPath emptyDisk 1 (some ".mkv") xJob).map Prod.snd ≠
      (getDestPath emptyDisk 1 (some "mkv") xJob).map Prod.snd ∧
    stripLeadingDots ".mkv" = "mkv" := by
  refine ⟨rfl, rfl, ?_, rfl⟩
  decide

/-! ## Action-name resolution (C8) -/

/-- **C8.** When more than one enabled plugin registered the same action
name, resolving that bare name throws the ambiguity error whose message
lists the qualified `plugin-id.name` options (built from *all* plugins under
that name); resolving any qualified (dotted) identifier never produces the
ambiguity error — registered plugins resolve, unregistered ones throw the
not-registered error. -/
theorem pluginManager_bare_ambiguity {κ : Type} (st : PMState κ) (name : String)
    (l : List (PluginR κ))
    (hbare : strHasChar name '.' = false)
    (hmap : alookup st.jobActionToPluginMap name = some l)
    (henabled : 2 ≤ (l.filter (fun p => !p.disabled)).length) :
    getPluginForJobAction st name =
      .error (.ambiguous name (String.intercalate ", "
        (l.map (fun p => getPluginIdentifier p ++ "." ++ name)))) ∧
    (∀ qid : String, strHasChar qid '.' = true → ∀ nm opts,
      getPluginForJobAction st qid ≠ .error (.ambiguous nm opts)) := by
  constructor
  · have hlen : 1 < l.length :=
      lt_of_lt_of_le (by omega) (le_trans henabled (List.length_filter_le _ l))
    simp only [getPluginForJobAction, if_pos hbare, hmap, if_pos hlen]
    rcases hf : l.filter (fun p => !p.disabled) with _ | ⟨p1, _ | ⟨p2, t⟩⟩
    · rw [hf] at henabled
      simp at henabled
    · rw [hf] at henabled
      simp at henabled
    · rw [hf]
  · intro qid hq nm opts
    by_cases hr : hasPluginRegistered st (getPluginIdentifierOf qid) = true
    · simp [getPluginForJobAction, hq, hr]
    · simp [getPluginForJobAction, hq, hr]

/-- Witness for C8: `plugA` and `plugB` both enabled and both registering
`enc`; the bare name throws the two-option ambiguity error, the qualified
name does not. -/
theorem pluginManager_bare_ambiguity_witness :
    getPluginForJobAction ambSt "enc" =
      .error (.ambiguous "enc" "compressarr-a.enc, compressarr-b.enc") ∧
    getPluginForJobAction ambSt "compressarr-a.enc" ≠
      .error (.ambiguous "enc" "compressarr-a.enc, compressarr-b.enc") :=
  ⟨(pluginManager_bare_ambiguity ambSt "enc" [plugA, plugB] (by decide) (by decide)
      (by decide)).1,
    (pluginManager_bare_ambiguity ambSt "enc" [plugA, plugB] (by decide) (by decide)
      (by decide)).2 "compressarr-a.enc" (by decide) "enc"
      "compressarr-a.enc, compressarr-b.enc"⟩

/-! ## Manifest validation and the missing version check (C9) -/

/-- **C9, counterexample.** The claim as stated is false: a manifest with a
valid name and keyword but an empty (missing) version passes
`loadPackageJSON` validation — which checks only the name pattern and the
keyword sentinel — and `loadPlugin` adds the plugin to the registry, its
version defaulted to `"0.0.0"` by the `Plugin` constructor. -/
theorem plugin_empty_version_accepted_counterexample :
    pkgNoVersion.version = "" ∧
    loadPackageJSONCheck pkgNoVersion = .ok pkgNoVersion ∧
    (loadPlugin ([] : List (String × PluginR Nat)) "/p" pkgNoVersion).map
      (fun r => (alookup r.1 "compressarr-x").map (fun p => p.version)) =
      .ok (some "0.0.0") := by
  refine ⟨rfl, ?_, ?_⟩ <;> rfl

/-- **C9, amended.** Manifest validation rejects candidates whose name fails
the plugin-identifier pattern or whose keyword list lacks the sentinel
`compressarr-plugin`, but it performs no version check: a candidate with a
missing or empty version passes validation and *is* added to the plugin
registry, with its version defaulted to `"0.0.0"`. -/
theorem loadPlugin_defaults_empty_version {κ : Type} (reg : List (String × PluginR κ))
    (path : String) (pkg : PackageJSON) (kws : List String)
    (hname : isQualifiedPluginIdentifier pkg.name = true)
    (hkw : pkg.keywords = some kws)
    (hsent : kws.contains "compressarr-plugin" = true)
    (hreg : alookup reg pkg.name = none)
    (hver : pkg.version = "") :
    loadPlugin reg path pkg =
      .ok (aset reg pkg.name
            (mkPlugin κ (extractPluginName pkg.name) path pkg (extractPluginScope pkg.name)),
          mkPlugin κ (extractPluginName pkg.name) path pkg (extractPluginScope pkg.name)) ∧
    (mkPlugin κ (extractPluginName pkg.name) path pkg (extractPluginScope pkg.name)).version
      = "0.0.0" ∧
    alookup
        (aset reg pkg.name
          (mkPlugin κ (extractPluginName pkg.name) path pkg (extractPluginScope pkg.name)))
        pkg.name =
      some (mkPlugin κ (extractPluginName pkg.name) path pkg (extractPluginScope pkg.name)) ∧
    (∀ pkg2 : PackageJSON, isQualifiedPluginIdentifier pkg2.name = false →
      ∃ e, loadPackageJSONCheck pkg2 = .error e) ∧
    (∀ pkg2 : PackageJSON, pkg2.keywords = none →
      ∃ e, loadPackageJSONCheck pkg2 = .error e) := by
  have hne : pkg.name ≠ "" := by
    intro hempty
    rw [hempty] at hname
    exact absurd hname (by decide)
  have hsent' : "compressarr-plugin" ∈ kws := by simpa using hsent
  have hcheck : loadPackageJSONCheck pkg = .ok pkg := by
    simp [loadPackageJSONCheck, hname, hne, hkw, hsent']
  refine ⟨?_, by simp [mkPlugin, hver], alookup_aset_self _ _ _, ?_, ?_⟩
  · simp [loadPlugin, hcheck, hreg]
  · intro pkg2 h2
    exact ⟨"does not have a package name that begins with compressarr- or @scope/compressarr-",
      by simp [loadPackageJSONCheck, h2]⟩
  · intro pkg2 h2
    rw [loadPackageJSONCheck.eq_def]
    split
    · exact ⟨_, rfl⟩
    · rw [h2]
      simp

/-- Witness for the amended C9 at the concrete empty-version manifest. -/
theorem loadPlugin_defaults_empty_version_witness :
    loadPlugin ([] : List (String × PluginR Nat)) "/p" pkgNoVersion =
      .ok (aset [] pkgNoVersion.name
            (mkPlugin Nat (extractPluginName pkgNoVersion.name) "/p" pkgNoVersion
              (extractPluginScope pkgNoVersion.name)),
          mkPlugin Nat (extractPluginName pkgNoVersion.name) "/p" pkgNoVersion
            (extractPluginScope pkgNoVersion.name)) ∧
    (mkPlugin Nat (extractPluginName pkgNoVersion.name) "/p" pkgNoVersion
      (extractPluginScope pkgNoVersion.name)).version = "0.0.0" :=
  ⟨(loadPlugin_defaults_empty_version [] "/p" pkgNoVersion ["compressarr-plugin"]
      (by decide) rfl (by decide) rfl rfl).1,
    (loadPlugin_defaults_empty_version [] "/p" pkgNoVersion ["compressarr-plugin"]
      (by decide) rfl (by decide) rfl rfl).2.1⟩

/-! ## Duplicate action registration on a plugin (C10) -/

/-- **C10.** Registering an action name on a plugin succeeds when the name is
new; registering the same name again throws the duplicate-registration error
and leaves the registered-actions map unchanged, so the first constructor is
retained — and this holds whatever the plugin's `disabled` flag is (the flag
only selects a log line). -/
theorem plugin_registerJobAction_duplicate {κ : Type} (p : PluginR κ) (name : String)
    (c : κ) (h : alookup p.registeredJobActions name = none) :
    registerJobAction p name c =
      .ok { p with registeredJobActions := aset p.registeredJobActions name c } ∧
    (∀ (b : Bool) (c' : κ),
      registerJobAction { p with disabled := b, registeredJobActions := aset p.registeredJobActions name c } name c' =
      .error (dupActionMsg { p with disabled := b, registeredJobActions := aset p.registeredJobActions name c } name)) ∧
    (∀ b : Bool,
      alookup ({ p with disabled := b, registeredJobActions := aset p.registeredJobActions name c }).registeredJobActions name = some c) := by
  refine ⟨?_, ?_, ?_⟩
  · simp [registerJobAction, h]
  · intro b c'
    simp [registerJobAction, alookup_aset_self]
  · intro b
    simpa using alookup_aset_self p.registeredJobActions name c

/-- Witness for C10: register `enc` once, then watch the second registration
fail (with the plugin meanwhile disabled) while the first constructor stays. -/
theorem plugin_registerJobAction_duplicate_witness :
    registerJobAction plugEmpty "enc" (1 : Nat) =
      .ok { plugEmpty with
        registeredJobActions := aset plugEmpty.registeredJobActions "enc" 1 } ∧
    registerJobAction { plugEmpty with disabled := true, registeredJobActions := aset plugEmpty.registeredJobActions "enc" 1 } "enc" (2 : Nat) =
      .error (dupActionMsg { plugEmpty with disabled := true, registeredJobActions := aset plugEmpty.registeredJobActions "enc" 1 } "enc") ∧
    alookup ({ plugEmpty with disabled := true, registeredJobActions := aset plugEmpty.registeredJobActions "enc" 1 }).registeredJobActions "enc" = some 1 :=
  ⟨(plugin_registerJobAction_duplicate plugEmpty "enc" 1 rfl).1,
    (plugin_registerJobAction_duplicate plugEmpty "enc" 1 rfl).2.1 true 2,
    (plugin_registerJobAction_duplicate plugEmpty "enc" 1 rfl).2.2 true⟩

end Compressarr
